import Mathlib

/-!
# Verification of the training-agent rules engine

Shallow embedding of `packages/core/src/types.ts` and
`packages/core/src/rules-engine.ts`.

Modelling conventions:

* Calendar dates (`YYYY-MM-DD` strings in the source) are modelled as `Nat`
  day numbers (days since 1970-01-01).  For well-formed dates the source's
  `localeCompare` ordering coincides with the numeric order of day numbers,
  and `isNextDay` (a 24h-in-milliseconds difference, DST-free clock)
  coincides with `d2 = d1 + 1`.
* JavaScript `number` arithmetic (`* 1.1`, `Math.round`, division) is
  modelled with exact rationals; `Math.round` rounds half-way cases toward
  positive infinity, i.e. `jsRound q = ⌊q + 1/2⌋`.
* Optional fields (`notes?`, `tags?`, `todayFatigue?`) become `Option`;
  `x?.includes(t)` is false for `none`, `x || ''` is `Option.getD x ""`.
-/

inductive Sport where
  | swim | bike | run | strength | rest
deriving DecidableEq, Repr

inductive Intensity where
  | z1 | z2 | z3 | z4 | z5
deriving DecidableEq, Repr

structure Session where
  date : Nat
  sport : Sport
  title : String
  durationMin : Nat
  intensity : Intensity
  notes : Option String := none
  tags : Option (List String) := none
deriving DecidableEq, Repr

structure WeekPlan where
  startDate : Nat
  sessions : List Session
  warnings : List String
  appliedRules : List String
deriving DecidableEq, Repr

structure DateMinutes where
  date : Nat
  minutes : Nat
deriving DecidableEq, Repr

structure Last7dStats where
  totalMinutes : Nat
  byDate : List DateMinutes
deriving DecidableEq, Repr

structure TodayFatigue where
  readiness : Nat
  sleepScore : Option Nat := none
deriving DecidableEq, Repr

structure RulesContext where
  last7dStats : Last7dStats
  todayFatigue : Option TodayFatigue := none
deriving DecidableEq, Repr

/-- `HARD_INTENSITIES` from `types.ts` (a `Set`, modelled as a list with
membership via `contains`). -/
def HARD_INTENSITIES : List Intensity := [Intensity.z4, Intensity.z5]

/-- `HARD_TAGS` from `types.ts`. -/
def HARD_TAGS : List String := ["vo2", "threshold"]

/-- `isHardSession` from `types.ts`. -/
def isHardSession (session : Session) : Bool :=
  if HARD_INTENSITIES.contains session.intensity then true
  else
    match session.tags with
    | some tags => tags.any (fun tag => HARD_TAGS.contains tag)
    | none => false

/-- `downgradeToEasy` from `types.ts`. -/
def downgradeToEasy (session : Session) (reason : String) : Session :=
  { session with
    intensity := Intensity.z2
    title := session.title ++ " (downgraded to Z2)"
    notes := some ((session.notes.getD "" ++ "\nDowngraded: " ++ reason).trim)
    tags := session.tags.map (fun tags => tags.filter (fun tag => !HARD_TAGS.contains tag)) }

/-- `getDay(parseISO(d))`: day of week, 0 = Sunday .. 6 = Saturday.
Day 0 (1970-01-01) was a Thursday. -/
def getDay (date : Nat) : Nat := (date + 4) % 7

/-- `['Sun','Mon','Tue','Wed','Thu','Fri','Sat'][getDay(date)]` from
`applySwimRotationRule`. -/
def dayName (date : Nat) : String :=
  ["Sun", "Mon", "Tue", "Wed", "Thu", "Fri", "Sat"].getD (getDay date) ""

/-- `session.tags?.includes(t)`: `undefined` propagates to a falsy result. -/
def tagsInclude (tags : Option (List String)) (t : String) : Bool :=
  (tags.getD []).contains t

/-- The per-session body of the `forEach` in `applySwimRotationRule`,
returning the (possibly rewritten) session and whether the `modified`
flag was set for it.  The two `if`s in the source are exclusive (a date
is never both Wednesday and Friday), so they are sequenced as `else if`. -/
def swimRotateSession (session : Session) : Session × Bool :=
  if session.sport == Sport.swim then
    if dayName session.date == "Wed" && !tagsInclude session.tags "technique" then
      ({ session with
          title := "Swim Technique"
          tags := some ["technique"]
          notes := some ((session.notes.getD "" ++ "\nAdjusted to technique session").trim) },
        true)
    else if dayName session.date == "Fri" && !tagsInclude session.tags "intervals" then
      ({ session with
          title := "Swim Intervals"
          tags := some ["intervals"]
          intensity := Intensity.z4
          notes := some ((session.notes.getD "" ++ "\nAdjusted to intervals session").trim) },
        true)
    else (session, false)
  else (session, false)

/-- `applySwimRotationRule` from `rules-engine.ts`. -/
def applySwimRotationRule (plan : WeekPlan) : WeekPlan :=
  let results := plan.sessions.map swimRotateSession
  let sessions := results.map Prod.fst
  let modified := results.any Prod.snd
  let appliedRules :=
    if modified then
      plan.appliedRules ++
        ["SwimRotation: Adjusted swim sessions to match Wed=technique, Fri=intervals"]
    else plan.appliedRules
  { plan with sessions := sessions, appliedRules := appliedRules }

/-- The per-session body of the `forEach` in `applyReadinessDownshiftRule`. -/
def readinessStep (todayStr : Nat) (readiness : Nat) (session : Session) : Session × Bool :=
  if session.date == todayStr && isHardSession session then
    (downgradeToEasy session ("Low readiness (" ++ toString readiness ++ "/5)"), true)
  else (session, false)

/-- `applyReadinessDownshiftRule` from `rules-engine.ts`. -/
def applyReadinessDownshiftRule (plan : WeekPlan) (context : RulesContext) : WeekPlan :=
  match context.todayFatigue with
  | none => plan
  | some tf =>
    if tf.readiness > 2 then plan
    else
      let results := plan.sessions.map (readinessStep plan.startDate tf.readiness)
      let sessions := results.map Prod.fst
      let modified := results.any Prod.snd
      if modified then
        { plan with
          sessions := sessions
          warnings := plan.warnings ++
            ["⚠️ Low readiness detected (" ++ toString tf.readiness ++
              "/5). Hard sessions downgraded to Z2."]
          appliedRules := plan.appliedRules ++
            ["ReadinessDownshift: Downgraded hard sessions due to low readiness"] }
      else { plan with sessions := sessions }

/-- `isNextDay` from `rules-engine.ts`: the millisecond difference equals
exactly one day, i.e. `d2 = d1 + 1` on day numbers. -/
def isNextDay (date1 date2 : Nat) : Bool := date2 == date1 + 1

/-- Date comparison used by `sessions.sort((a, b) => a.date.localeCompare(b.date))`. -/
def dateLe (a b : Session) : Prop := a.date ≤ b.date

instance : DecidableRel dateLe := fun a b => inferInstanceAs (Decidable (a.date ≤ b.date))

instance : IsTotal Session dateLe := ⟨fun a b => Nat.le_total a.date b.date⟩

instance : IsTrans Session dateLe := ⟨fun _ _ _ h1 h2 => Nat.le_trans h1 h2⟩

/-- The `forEach` walk of `applyNoHardHardRule`, threading `previousWasHard`
and `previousDate`, returning the rewritten list and the `modified` flag. -/
def noHardHardWalk (previousWasHard : Bool) (previousDate : Option Nat) :
    List Session → List Session × Bool
  | [] => ([], false)
  | session :: rest =>
    let currentHard := isHardSession session
    let isConsecutive :=
      match previousDate with
      | some d => isNextDay d session.date
      | none => false
    if isConsecutive && previousWasHard && currentHard then
      let out := noHardHardWalk false (some session.date) rest
      (downgradeToEasy session "No back-to-back hard sessions allowed" :: out.1, true)
    else
      let out := noHardHardWalk currentHard (some session.date) rest
      (session :: out.1, out.2)

/-- `applyNoHardHardRule` from `rules-engine.ts`.  The source's stable
`Array.sort` on date strings is modelled by the stable `insertionSort`
on day numbers. -/
def applyNoHardHardRule (plan : WeekPlan) : WeekPlan :=
  let sorted := List.insertionSort dateLe plan.sessions
  let out := noHardHardWalk false none sorted
  if out.2 then
    { plan with
      sessions := out.1
      warnings := plan.warnings ++ ["⚠️ Adjusted plan to avoid back-to-back hard sessions"]
      appliedRules := plan.appliedRules ++
        ["NoHardHard: Prevented consecutive hard training days"] }
  else { plan with sessions := out.1 }

/-- `Math.round` on exact rationals: rounds half-way cases up. -/
def jsRound (q : ℚ) : ℤ := ⌊q + 1/2⌋

/-- The per-session body of the `forEach` in `applyWeeklyLoadCapRule`. -/
def wlcScale (maxAllowedMinutes : ℤ) (plannedMinutes : ℕ) (session : Session) : Session :=
  if session.sport ≠ Sport.rest ∧ 0 < session.durationMin then
    let scaleFactor : ℚ := (maxAllowedMinutes : ℚ) / (plannedMinutes : ℚ)
    let newDuration : ℕ := (max 30 (jsRound ((session.durationMin : ℚ) * scaleFactor))).toNat
    if newDuration ≠ session.durationMin then
      { session with
        durationMin := newDuration
        notes := some ((session.notes.getD "" ++
          "\nDuration adjusted for progressive load management").trim) }
    else session
  else session

/-- `applyWeeklyLoadCapRule` from `rules-engine.ts`. -/
def applyWeeklyLoadCapRule (plan : WeekPlan) (context : RulesContext) : WeekPlan :=
  let lastWeekMinutes := context.last7dStats.totalMinutes
  if lastWeekMinutes = 0 then plan
  else
    let plannedMinutes := (plan.sessions.map Session.durationMin).sum
    let maxAllowedMinutes := jsRound ((lastWeekMinutes : ℚ) * 1.1)
    if (plannedMinutes : ℤ) ≤ maxAllowedMinutes then plan
    else
      { plan with
        sessions := plan.sessions.map (wlcScale maxAllowedMinutes plannedMinutes)
        warnings := plan.warnings ++
          ["⚠️ Weekly load capped at 110% of last week (" ++ toString lastWeekMinutes ++
            "min → " ++ toString maxAllowedMinutes ++ "min max)"]
        appliedRules := plan.appliedRules ++
          ["WeeklyLoadCap: Scaled durations from " ++ toString plannedMinutes ++
            "min to " ++ toString maxAllowedMinutes ++ "min"] }

/-- `applyRules` from `rules-engine.ts`. -/
def applyRules (weekPlan : WeekPlan) (context : RulesContext) : WeekPlan :=
  let plan0 : WeekPlan := { weekPlan with warnings := [], appliedRules := [] }
  let plan1 := applySwimRotationRule plan0
  let plan2 := applyReadinessDownshiftRule plan1 context
  let plan3 := applyNoHardHardRule plan2
  applyWeeklyLoadCapRule plan3 context

/-! ## Basic facts about the session classifier -/

theorem downgradeToEasy_date (s : Session) (r : String) : (downgradeToEasy s r).date = s.date :=
  rfl

theorem downgradeToEasy_sport (s : Session) (r : String) : (downgradeToEasy s r).sport = s.sport :=
  rfl

theorem downgradeToEasy_intensity (s : Session) (r : String) :
    (downgradeToEasy s r).intensity = Intensity.z2 :=
  rfl

theorem downgradeToEasy_durationMin (s : Session) (r : String) :
    (downgradeToEasy s r).durationMin = s.durationMin :=
  rfl

theorem isHardSession_downgradeToEasy (s : Session) (r : String) :
    isHardSession (downgradeToEasy s r) = false := by
  unfold isHardSession downgradeToEasy
  cases htags : s.tags with
  | none => simp [HARD_INTENSITIES, htags]
  | some l =>
    simp only [HARD_INTENSITIES, HARD_TAGS, htags, Option.map_some,
      List.any_eq_true, List.mem_filter]
    simp

/-- `isHardSession` only reads the `intensity` and `tags` fields. -/
theorem isHardSession_congr (s t : Session) (hi : t.intensity = s.intensity)
    (ht : t.tags = s.tags) : isHardSession t = isHardSession s := by
  unfold isHardSession
  rw [hi, ht]

theorem self_ne_append_downgrade (a : String) : a ++ " (downgraded to Z2)" ≠ a := by
  intro h
  have hlen := congrArg String.length h
  rw [String.length_append] at hlen
  have h19 : (" (downgraded to Z2)" : String).length = 19 := rfl
  omega

theorem downgradeToEasy_ne (s : Session) (r : String) : downgradeToEasy s r ≠ s := by
  intro h
  have := congrArg Session.title h
  exact self_ne_append_downgrade s.title this

/-! ## The NoHardHard walk -/

/-- Adjacent-pair safety: no two list-adjacent sessions on consecutive
calendar days are both hard. -/
def adjOkB : List Session → Bool
  | [] => true
  | [_] => true
  | a :: b :: rest =>
    (!(b.date == a.date + 1 && isHardSession a && isHardSession b)) && adjOkB (b :: rest)

theorem noHardHardWalk_dates (l : List Session) : ∀ (pH : Bool) (pD : Option Nat),
    (noHardHardWalk pH pD l).1.map Session.date = l.map Session.date := by
  induction l with
  | nil => intro pH pD; rfl
  | cons s rest ih =>
    intro pH pD
    simp only [noHardHardWalk]
    split
    · simp [downgradeToEasy_date, ih]
    · simp [ih]

theorem noHardHardWalk_length (l : List Session) (pH : Bool) (pD : Option Nat) :
    (noHardHardWalk pH pD l).1.length = l.length := by
  have h := noHardHardWalk_dates l pH pD
  have h1 := congrArg List.length h
  simpa using h1

theorem noHardHardWalk_adjOk (l : List Session) : ∀ (pH : Bool) (pD : Option Nat),
    adjOkB (noHardHardWalk pH pD l).1 = true ∧
      (∀ s t, (noHardHardWalk pH pD l).1 = s :: t →
        ∀ d, pD = some d → s.date = d + 1 → (pH && isHardSession s) = false) := by
  induction l with
  | nil =>
    intro pH pD
    exact ⟨rfl, fun s t h => by simp [noHardHardWalk] at h⟩
  | cons s rest ih =>
    intro pH pD
    simp only [noHardHardWalk]
    split
    · -- downgrade branch: the guard `isConsecutive && pH && currentHard` fired
      rename_i hguard
      have ihd := ih false (some s.date)
      constructor
      · -- adjOkB of the downgraded head followed by the recursive tail
        rcases hrest : (noHardHardWalk false (some s.date) rest).1 with _ | ⟨r, t⟩
        · simp [adjOkB]
        · rw [hrest] at ihd
          simp only [adjOkB, isHardSession_downgradeToEasy]
          simp [ihd.1]
      · intro s' t' h' d hd hdate
        rw [List.cons.injEq] at h'
        rw [← h'.1, isHardSession_downgradeToEasy]
        simp
    · -- no-downgrade branch
      rename_i hguard
      have ihd := ih (isHardSession s) (some s.date)
      constructor
      · rcases hrest : (noHardHardWalk (isHardSession s) (some s.date) rest).1 with _ | ⟨r, t⟩
        · simp [adjOkB]
        · rw [hrest] at ihd
          simp only [adjOkB, Bool.and_eq_true]
          refine ⟨?_, ihd.1⟩
          rw [Bool.not_eq_true']
          by_cases hcons : r.date = s.date + 1
          · have hhead := ihd.2 r t rfl s.date rfl hcons
            simp [hcons, hhead]
          · simp [hcons]
      · intro s' t' h' d hd hdate
        rw [List.cons.injEq] at h'
        rw [← h'.1] at hdate ⊢
        -- the guard was false; with `pD = some d` and `s.date = d + 1` it
        -- reduces to `¬(pH && isHardSession s)`
        subst hd
        simp only [isNextDay, hdate] at hguard
        simp only [beq_self_eq_true, Bool.true_and] at hguard
        simpa using hguard

/-! ## Shape lemmas for the four rules -/

theorem applySwimRotationRule_startDate (p : WeekPlan) :
    (applySwimRotationRule p).startDate = p.startDate :=
  rfl

theorem applySwimRotationRule_sessions (p : WeekPlan) :
    (applySwimRotationRule p).sessions = p.sessions.map (fun s => (swimRotateSession s).1) := by
  unfold applySwimRotationRule
  dsimp only
  rw [List.map_map]
  rfl

theorem applyReadinessDownshiftRule_startDate (p : WeekPlan) (c : RulesContext) :
    (applyReadinessDownshiftRule p c).startDate = p.startDate := by
  unfold applyReadinessDownshiftRule
  split
  · rfl
  · split
    · rfl
    · dsimp only
      split <;> rfl

theorem applyReadinessDownshiftRule_sessions (p : WeekPlan) (c : RulesContext) :
    (applyReadinessDownshiftRule p c).sessions = p.sessions ∨
    ∃ rd : Nat, (applyReadinessDownshiftRule p c).sessions =
      p.sessions.map (fun s => (readinessStep p.startDate rd s).1) := by
  unfold applyReadinessDownshiftRule
  split
  · left; rfl
  · split
    · left; rfl
    · rename_i x tf htf h
      right
      refine ⟨tf.readiness, ?_⟩
      dsimp only
      split
      · rw [List.map_map]; rfl
      · rw [List.map_map]; rfl

theorem applyNoHardHardRule_startDate (p : WeekPlan) :
    (applyNoHardHardRule p).startDate = p.startDate := by
  unfold applyNoHardHardRule
  dsimp only
  split <;> rfl

theorem applyNoHardHardRule_sessions (p : WeekPlan) :
    (applyNoHardHardRule p).sessions =
      (noHardHardWalk false none (List.insertionSort dateLe p.sessions)).1 := by
  unfold applyNoHardHardRule
  dsimp only
  split <;> rfl

theorem applyWeeklyLoadCapRule_startDate (p : WeekPlan) (c : RulesContext) :
    (applyWeeklyLoadCapRule p c).startDate = p.startDate := by
  unfold applyWeeklyLoadCapRule
  dsimp only
  split
  · rfl
  · split <;> rfl

theorem applyWeeklyLoadCapRule_sessions_shape (p : WeekPlan) (c : RulesContext) :
    (applyWeeklyLoadCapRule p c).sessions = p.sessions ∨
    (applyWeeklyLoadCapRule p c).sessions =
      p.sessions.map (wlcScale (jsRound ((c.last7dStats.totalMinutes : ℚ) * 1.1))
        ((p.sessions.map Session.durationMin).sum)) := by
  unfold applyWeeklyLoadCapRule
  dsimp only
  split
  · left; rfl
  · split
    · left; rfl
    · right; rfl

/-! ## wlcScale field preservation -/

theorem wlcScale_date (M : ℤ) (P : ℕ) (s : Session) : (wlcScale M P s).date = s.date := by
  unfold wlcScale
  split
  · dsimp only
    split <;> rfl
  · rfl

theorem wlcScale_sport (M : ℤ) (P : ℕ) (s : Session) : (wlcScale M P s).sport = s.sport := by
  unfold wlcScale
  split
  · dsimp only
    split <;> rfl
  · rfl

theorem wlcScale_intensity (M : ℤ) (P : ℕ) (s : Session) :
    (wlcScale M P s).intensity = s.intensity := by
  unfold wlcScale
  split
  · dsimp only
    split <;> rfl
  · rfl

theorem wlcScale_tags (M : ℤ) (P : ℕ) (s : Session) : (wlcScale M P s).tags = s.tags := by
  unfold wlcScale
  split
  · dsimp only
    split <;> rfl
  · rfl

theorem isHardSession_wlcScale (M : ℤ) (P : ℕ) (s : Session) :
    isHardSession (wlcScale M P s) = isHardSession s :=
  isHardSession_congr s _ (wlcScale_intensity M P s) (wlcScale_tags M P s)

/-! ## Transfer of the adjacency invariant and sortedness through maps -/

theorem adjOkB_map (f : Session → Session)
    (hd : ∀ s, (f s).date = s.date) (hh : ∀ s, isHardSession (f s) = isHardSession s)
    (l : List Session) : adjOkB (l.map f) = adjOkB l := by
  induction l with
  | nil => rfl
  | cons a t ih =>
    cases t with
    | nil => rfl
    | cons b r =>
      simp only [List.map_cons] at ih ⊢
      simp only [adjOkB, hd, hh]
      rw [ih]

theorem pairwise_dateLe_of_map_date_eq (l1 l2 : List Session)
    (h : l1.map Session.date = l2.map Session.date) (hp : List.Pairwise dateLe l1) :
    List.Pairwise dateLe l2 := by
  have hp1 : List.Pairwise (fun a b : Session => a.date ≤ b.date) l1 := hp
  have h1 : List.Pairwise (fun a b : Nat => a ≤ b) (l1.map Session.date) :=
    List.pairwise_map.2 hp1
  rw [h] at h1
  have h2 : List.Pairwise (fun a b : Session => a.date ≤ b.date) l2 :=
    List.pairwise_map.1 h1
  exact h2

theorem map_date_map_wlcScale (M : ℤ) (P : ℕ) (l : List Session) :
    (l.map (wlcScale M P)).map Session.date = l.map Session.date := by
  simp [List.map_map, Function.comp_def, wlcScale_date]

/-- After `applyNoHardHardRule` the session list is date-sorted and satisfies
the adjacent-pair safety predicate. -/
theorem noHardHard_establishes (q : WeekPlan) :
    List.Pairwise dateLe (applyNoHardHardRule q).sessions ∧
      adjOkB (applyNoHardHardRule q).sessions = true := by
  rw [applyNoHardHardRule_sessions]
  constructor
  · apply pairwise_dateLe_of_map_date_eq (List.insertionSort dateLe q.sessions)
    · exact (noHardHardWalk_dates _ _ _).symm
    · exact List.sorted_insertionSort dateLe q.sessions
  · exact (noHardHardWalk_adjOk _ _ _).1

/-- `applyWeeklyLoadCapRule` preserves dates, hardness, and hence both
invariants established by `applyNoHardHardRule`. -/
theorem wlc_preserves_invariants (q : WeekPlan) (c : RulesContext)
    (hpair : List.Pairwise dateLe q.sessions) (hadj : adjOkB q.sessions = true) :
    List.Pairwise dateLe (applyWeeklyLoadCapRule q c).sessions ∧
      adjOkB (applyWeeklyLoadCapRule q c).sessions = true := by
  rcases applyWeeklyLoadCapRule_sessions_shape q c with h | h <;> rw [h]
  · exact ⟨hpair, hadj⟩
  · constructor
    · exact pairwise_dateLe_of_map_date_eq q.sessions _
        (map_date_map_wlcScale _ _ _).symm hpair
    · rw [adjOkB_map _ (wlcScale_date _ _) (isHardSession_wlcScale _ _)]
      exact hadj

/-! ## Length preservation -/

theorem applySwimRotationRule_length (p : WeekPlan) :
    (applySwimRotationRule p).sessions.length = p.sessions.length := by
  rw [applySwimRotationRule_sessions, List.length_map]

theorem applyReadinessDownshiftRule_length (p : WeekPlan) (c : RulesContext) :
    (applyReadinessDownshiftRule p c).sessions.length = p.sessions.length := by
  rcases applyReadinessDownshiftRule_sessions p c with h | ⟨rd, h⟩ <;>
    rw [h] <;> simp

theorem applyNoHardHardRule_length (p : WeekPlan) :
    (applyNoHardHardRule p).sessions.length = p.sessions.length := by
  rw [applyNoHardHardRule_sessions, noHardHardWalk_length, List.length_insertionSort]

theorem applyWeeklyLoadCapRule_length (p : WeekPlan) (c : RulesContext) :
    (applyWeeklyLoadCapRule p c).sessions.length = p.sessions.length := by
  rcases applyWeeklyLoadCapRule_sessions_shape p c with h | h <;>
    rw [h] <;> simp

/-- C1: for every plan and context, after `applyRules` the session list is in
date order, and no two adjacent sessions whose dates differ by exactly one
calendar day are both hard. -/
theorem C1_no_hard_hard_invariant (p : WeekPlan) (c : RulesContext) :
    List.Pairwise dateLe (applyRules p c).sessions ∧
      adjOkB (applyRules p c).sessions = true := by
  have hrw : applyRules p c =
      applyWeeklyLoadCapRule (applyNoHardHardRule (applyReadinessDownshiftRule
        (applySwimRotationRule { p with warnings := [], appliedRules := [] }) c)) c := rfl
  rw [hrw]
  have h := noHardHard_establishes
    (applyReadinessDownshiftRule
      (applySwimRotationRule { p with warnings := [], appliedRules := [] }) c)
  exact wlc_preserves_invariants _ c h.1 h.2

/-- The rule pipeline exactly as §4.3 of the spec words it: reset the
annotations, then SwimRotation, then ReadinessDownshift, then NoHardHard,
then WeeklyLoadCap, each rule consuming the previous rule's output. -/
def applyRulesSpec (weekPlan : WeekPlan) (context : RulesContext) : WeekPlan :=
  applyWeeklyLoadCapRule
    (applyNoHardHardRule
      (applyReadinessDownshiftRule
        (applySwimRotationRule { weekPlan with warnings := [], appliedRules := [] })
        context))
    context

/-- C3: `applyRules` is the sequential composition of the four rules, in the
order SwimRotation, ReadinessDownshift, NoHardHard, WeeklyLoadCap, applied to
the input plan with `warnings` and `appliedRules` reset to empty. -/
theorem C3_pipeline_composition (p : WeekPlan) (c : RulesContext) :
    applyRules p c = applyRulesSpec p c :=
  rfl

/-- C10: `applyRules` preserves the plan's `startDate` and the number of
sessions. -/
theorem C10_frame_preservation (p : WeekPlan) (c : RulesContext) :
    (applyRules p c).startDate = p.startDate ∧
      (applyRules p c).sessions.length = p.sessions.length := by
  have hrw : applyRules p c =
      applyWeeklyLoadCapRule (applyNoHardHardRule (applyReadinessDownshiftRule
        (applySwimRotationRule { p with warnings := [], appliedRules := [] }) c)) c := rfl
  rw [hrw]
  constructor
  · rw [applyWeeklyLoadCapRule_startDate, applyNoHardHardRule_startDate,
      applyReadinessDownshiftRule_startDate, applySwimRotationRule_startDate]
  · rw [applyWeeklyLoadCapRule_length, applyNoHardHardRule_length,
      applyReadinessDownshiftRule_length, applySwimRotationRule_length]

/-- `readinessStep` leaves any session dated off `todayStr` unchanged. -/
theorem readinessStep_other_date (todayStr rd : Nat) (s : Session)
    (h : s.date ≠ todayStr) : (readinessStep todayStr rd s).1 = s := by
  unfold readinessStep
  rw [if_neg]
  simp [h]

/-- C7: ReadinessDownshift only ever modifies sessions dated on
`plan.startDate`; every session at any other date is returned unchanged, at
its position, for every context and readiness value. -/
theorem C7_readiness_locality (p : WeekPlan) (c : RulesContext) :
    List.Forall₂ (fun s t => s.date ≠ p.startDate → t = s) p.sessions
      (applyReadinessDownshiftRule p c).sessions := by
  rcases applyReadinessDownshiftRule_sessions p c with h | ⟨rd, h⟩ <;> rw [h]
  · exact List.forall₂_same.2 fun s _ _ => rfl
  · rw [List.forall₂_map_right_iff]
    exact List.forall₂_same.2 fun s _ hs => readinessStep_other_date _ _ _ hs

/-- C8: absent optional context is a no-op: a missing `todayFatigue`, a
readiness above 2, and a zero `last7dStats.totalMinutes` each leave the plan
exactly as it was. -/
theorem C8_optional_context_noop (p : WeekPlan) (c : RulesContext) :
    (c.todayFatigue = none → applyReadinessDownshiftRule p c = p) ∧
    (∀ tf, c.todayFatigue = some tf → tf.readiness > 2 →
      applyReadinessDownshiftRule p c = p) ∧
    (c.last7dStats.totalMinutes = 0 → applyWeeklyLoadCapRule p c = p) := by
  refine ⟨fun h => ?_, fun tf h hr => ?_, fun h => ?_⟩
  · unfold applyReadinessDownshiftRule
    rw [h]
  · unfold applyReadinessDownshiftRule
    rw [h]
    simp [hr]
  · unfold applyWeeklyLoadCapRule
    rw [if_pos h]

/-! ## Concrete inputs for witnesses and counterexamples -/

def planW8 : WeekPlan :=
  { startDate := 0
    sessions := [{ date := 0, sport := Sport.bike, title := "Bike VO2", durationMin := 70,
                   intensity := Intensity.z5 }]
    warnings := []
    appliedRules := [] }

def ctxW8none : RulesContext := { last7dStats := { totalMinutes := 100, byDate := [] } }

def ctxW8high : RulesContext :=
  { last7dStats := { totalMinutes := 100, byDate := [] }
    todayFatigue := some { readiness := 5 } }

def ctxW8zero : RulesContext := { last7dStats := { totalMinutes := 0, byDate := [] } }

theorem C8_witness :
    applyReadinessDownshiftRule planW8 ctxW8none = planW8 ∧
    applyReadinessDownshiftRule planW8 ctxW8high = planW8 ∧
    applyWeeklyLoadCapRule planW8 ctxW8zero = planW8 :=
  ⟨(C8_optional_context_noop planW8 ctxW8none).1 rfl,
   (C8_optional_context_noop planW8 ctxW8high).2.1 { readiness := 5 } rfl (by decide),
   (C8_optional_context_noop planW8 ctxW8zero).2.2 rfl⟩

/-! ## SwimRotation idempotence -/

/-- A session already carrying the tag its weekday demands is not touched. -/
theorem swimRotateSession_fixed (t : Session)
    (h : (dayName t.date = "Wed" ∧ t.tags = some ["technique"]) ∨
         (dayName t.date = "Fri" ∧ t.tags = some ["intervals"])) :
    swimRotateSession t = (t, false) := by
  unfold swimRotateSession
  rcases h with ⟨hd, ht⟩ | ⟨hd, ht⟩ <;> rw [hd, ht] <;> split <;> simp [tagsInclude]

/-- Case analysis on one `swimRotateSession` step: either it is the identity
with no flag, or the result carries exactly the tag its weekday demands. -/
theorem swimRotateSession_cases (s : Session) :
    swimRotateSession s = (s, false) ∨
    ((dayName (swimRotateSession s).1.date = "Wed" ∧
        (swimRotateSession s).1.tags = some ["technique"]) ∨
      (dayName (swimRotateSession s).1.date = "Fri" ∧
        (swimRotateSession s).1.tags = some ["intervals"])) := by
  unfold swimRotateSession
  split
  · split
    · rename_i hguard
      right
      left
      have hwed : dayName s.date = "Wed" := by
        rw [Bool.and_eq_true] at hguard
        exact eq_of_beq hguard.1
      exact ⟨hwed, rfl⟩
    · split
      · rename_i hguard
        right
        right
        have hfri : dayName s.date = "Fri" := by
          rw [Bool.and_eq_true] at hguard
          exact eq_of_beq hguard.1
        exact ⟨hfri, rfl⟩
      · left; rfl
  · left; rfl

theorem swimRotateSession_idem (s : Session) :
    swimRotateSession (swimRotateSession s).1 = ((swimRotateSession s).1, false) := by
  rcases swimRotateSession_cases s with h | h
  · rw [h]
    exact h
  · exact swimRotateSession_fixed _ h

/-- If every session of a plan is a fixed point of `swimRotateSession`, the
rule is the identity on that plan. -/
theorem applySwimRotationRule_of_fixed (q : WeekPlan)
    (h : ∀ s ∈ q.sessions, swimRotateSession s = (s, false)) :
    applySwimRotationRule q = q := by
  unfold applySwimRotationRule
  have hmap : q.sessions.map swimRotateSession = q.sessions.map (fun s => (s, false)) :=
    List.map_congr_left h
  dsimp only
  rw [hmap]
  simp [Function.comp_def]

/-- C6: SwimRotation is idempotent: applying it to its own output changes
nothing further — no session is edited again and no duplicate `appliedRules`
entry is appended. -/
theorem C6_swim_rotation_idempotent (p : WeekPlan) :
    applySwimRotationRule (applySwimRotationRule p) = applySwimRotationRule p := by
  apply applySwimRotationRule_of_fixed
  intro s hs
  rw [applySwimRotationRule_sessions] at hs
  rcases List.mem_map.1 hs with ⟨t, ht, rfl⟩
  exact swimRotateSession_idem t

/-! ## Three consecutive hard days -/

/-- C5: for a plan of exactly three sessions on consecutive dates, all hard,
NoHardHard keeps day 1 hard, downgrades day 2 to z2 (no longer hard), and
leaves day 3 hard. -/
theorem C5_three_consecutive_hard (p : WeekPlan) (s1 s2 s3 : Session)
    (hs : p.sessions = [s1, s2, s3])
    (hd2 : s2.date = s1.date + 1) (hd3 : s3.date = s2.date + 1)
    (h1 : isHardSession s1 = true) (h2 : isHardSession s2 = true)
    (h3 : isHardSession s3 = true) :
    (applyNoHardHardRule p).sessions =
      [s1, downgradeToEasy s2 "No back-to-back hard sessions allowed", s3] ∧
    isHardSession s1 = true ∧
    (downgradeToEasy s2 "No back-to-back hard sessions allowed").intensity = Intensity.z2 ∧
    isHardSession (downgradeToEasy s2 "No back-to-back hard sessions allowed") = false ∧
    isHardSession s3 = true := by
  refine ⟨?_, h1, downgradeToEasy_intensity s2 _, isHardSession_downgradeToEasy s2 _, h3⟩
  rw [applyNoHardHardRule_sessions, hs]
  have hsorted : List.Sorted dateLe [s1, s2, s3] := by
    simp only [List.sorted_cons, List.mem_cons, List.not_mem_nil, or_false, dateLe]
    refine ⟨fun b hb => ?_, fun b hb => ?_, by simp [List.Sorted]⟩
    · rcases hb with rfl | rfl <;> omega
    · rcases hb with rfl <;> omega
  rw [List.Sorted.insertionSort_eq hsorted]
  simp only [noHardHardWalk, isNextDay, h1, h2, h3, hd2, hd3, beq_self_eq_true]
  simp

def sC5a : Session :=
  { date := 10, sport := Sport.run, title := "Run Hard", durationMin := 60,
    intensity := Intensity.z4 }

def sC5b : Session :=
  { date := 11, sport := Sport.bike, title := "Bike Hard", durationMin := 60,
    intensity := Intensity.z5 }

def sC5c : Session :=
  { date := 12, sport := Sport.run, title := "Run Hard", durationMin := 55,
    intensity := Intensity.z4 }

def planC5 : WeekPlan :=
  { startDate := 10, sessions := [sC5a, sC5b, sC5c], warnings := [], appliedRules := [] }

theorem C5_witness :
    (applyNoHardHardRule planC5).sessions =
      [sC5a, downgradeToEasy sC5b "No back-to-back hard sessions allowed", sC5c] ∧
    isHardSession sC5a = true ∧
    (downgradeToEasy sC5b "No back-to-back hard sessions allowed").intensity = Intensity.z2 ∧
    isHardSession (downgradeToEasy sC5b "No back-to-back hard sessions allowed") = false ∧
    isHardSession sC5c = true :=
  C5_three_consecutive_hard planC5 sC5a sC5b sC5c rfl (by decide) (by decide)
    (by decide) (by decide) (by decide)

/-! ## WeeklyLoadCap arithmetic -/

/-- Sum of `durationMin` over non-rest sessions. -/
def nonRestSum : List Session → ℕ
  | [] => 0
  | s :: rest => (if s.sport ≠ Sport.rest then s.durationMin else 0) + nonRestSum rest

/-- Number of non-rest sessions. -/
def nonRestCount : List Session → ℕ
  | [] => 0
  | s :: rest => (if s.sport ≠ Sport.rest then 1 else 0) + nonRestCount rest

theorem nonRestSum_le_sum (l : List Session) :
    nonRestSum l ≤ (l.map Session.durationMin).sum := by
  induction l with
  | nil => simp [nonRestSum]
  | cons s t ih =>
    simp only [nonRestSum, List.map_cons, List.sum_cons]
    split <;> omega

theorem one_le_jsRound (q : ℚ) (h : 1 ≤ q) : 1 ≤ jsRound q := by
  unfold jsRound
  rw [Int.le_floor]
  push_cast
  linarith

theorem applyWeeklyLoadCapRule_sessions_of_fires (p : WeekPlan) (c : RulesContext)
    (h1 : c.last7dStats.totalMinutes ≠ 0)
    (h2 : ¬ (((p.sessions.map Session.durationMin).sum : ℤ) ≤
        jsRound ((c.last7dStats.totalMinutes : ℚ) * 1.1))) :
    (applyWeeklyLoadCapRule p c).sessions =
      p.sessions.map (wlcScale (jsRound ((c.last7dStats.totalMinutes : ℚ) * 1.1))
        ((p.sessions.map Session.durationMin).sum)) := by
  unfold applyWeeklyLoadCapRule
  dsimp only
  rw [if_neg h1, if_neg h2]

theorem wlcScale_durationMin (M : ℤ) (P : ℕ) (s : Session)
    (hs : s.sport ≠ Sport.rest) (hd : 0 < s.durationMin) :
    (wlcScale M P s).durationMin =
      (max 30 (jsRound ((s.durationMin : ℚ) * ((M : ℚ) / (P : ℚ))))).toNat := by
  unfold wlcScale
  rw [if_pos ⟨hs, hd⟩]
  dsimp only
  split
  · rfl
  · rename_i h
    exact (not_not.1 h).symm

theorem wlcScale_durationMin_le (M : ℤ) (P : ℕ) (hM : 0 ≤ M) (s : Session)
    (hs : s.sport ≠ Sport.rest) :
    ((wlcScale M P s).durationMin : ℚ) ≤
      30 + (s.durationMin : ℚ) * ((M : ℚ) / (P : ℚ)) := by
  have hx : (0:ℚ) ≤ (s.durationMin : ℚ) * ((M : ℚ) / (P : ℚ)) := by positivity
  by_cases hd : 0 < s.durationMin
  · rw [wlcScale_durationMin M P s hs hd]
    set j : ℤ := jsRound ((s.durationMin : ℚ) * ((M : ℚ) / (P : ℚ))) with hjdef
    have hj : (j : ℚ) ≤ (s.durationMin : ℚ) * ((M : ℚ) / (P : ℚ)) + 1/2 := Int.floor_le _
    have hmax : (0:ℤ) ≤ max 30 j := le_trans (by norm_num) (le_max_left _ _)
    have h1 : ((max 30 j).toNat : ℤ) = max 30 j := Int.toNat_of_nonneg hmax
    have h2 : (((max 30 j).toNat : ℕ) : ℚ) = ((max 30 j : ℤ) : ℚ) := by
      exact_mod_cast congrArg (fun z : ℤ => (z : ℚ)) h1
    rw [h2, Int.cast_max]
    push_cast
    apply max_le
    · linarith
    · linarith
  · have hd0 : s.durationMin = 0 := by omega
    unfold wlcScale
    rw [if_neg (fun hc => hd hc.2)]
    rw [hd0]
    push_cast
    linarith

theorem nonRestSum_map_wlcScale (M : ℤ) (P : ℕ) (hM : 0 ≤ M) (l : List Session) :
    (nonRestSum (l.map (wlcScale M P)) : ℚ) ≤
      30 * nonRestCount l + (nonRestSum l : ℚ) * ((M : ℚ) / (P : ℚ)) := by
  induction l with
  | nil => simp [nonRestSum, nonRestCount]
  | cons s t ih =>
    simp only [List.map_cons, nonRestSum, nonRestCount]
    by_cases hs : s.sport = Sport.rest
    · rw [if_neg (by rw [wlcScale_sport]; simp [hs]), if_neg (by simp [hs]),
        if_neg (by simp [hs])]
      push_cast
      push_cast at ih
      linarith
    · rw [if_pos (by rw [wlcScale_sport]; exact hs), if_pos hs, if_pos hs]
      have hpt := wlcScale_durationMin_le M P hM s hs
      push_cast
      push_cast at ih
      nlinarith [hpt, ih]

/-- C2 (amended): when WeeklyLoadCap fires, the non-rest total is bounded by
`appliedCap + 30 × sessionCount` — the cap plus at most 30 minutes per
non-rest session contributed by rounding and the 30-minute floor. -/
theorem C2_amended_cap_bound (p : WeekPlan) (c : RulesContext)
    (h1 : 0 < c.last7dStats.totalMinutes)
    (h2 : jsRound ((c.last7dStats.totalMinutes : ℚ) * 1.1) <
      ((p.sessions.map Session.durationMin).sum : ℤ)) :
    (nonRestSum (applyWeeklyLoadCapRule p c).sessions : ℤ) ≤
      jsRound ((c.last7dStats.totalMinutes : ℚ) * 1.1) +
        30 * nonRestCount p.sessions := by
  have hM1 : 1 ≤ jsRound ((c.last7dStats.totalMinutes : ℚ) * 1.1) := by
    apply one_le_jsRound
    have h1' : (1:ℚ) ≤ (c.last7dStats.totalMinutes : ℚ) := by exact_mod_cast h1
    linarith
  have hses := applyWeeklyLoadCapRule_sessions_of_fires p c (by omega) (not_le.2 h2)
  rw [hses]
  have hP0 : 0 < (p.sessions.map Session.durationMin).sum := by
    have : (0:ℤ) < (((p.sessions.map Session.durationMin).sum : ℕ) : ℤ) := by omega
    exact_mod_cast this
  have hsum := nonRestSum_map_wlcScale (jsRound ((c.last7dStats.totalMinutes : ℚ) * 1.1))
    ((p.sessions.map Session.durationMin).sum) (by omega) p.sessions
  have hnr : (nonRestSum p.sessions : ℚ) ≤ (((p.sessions.map Session.durationMin).sum : ℕ) : ℚ) := by
    exact_mod_cast nonRestSum_le_sum p.sessions
  have hP' : (0:ℚ) < (((p.sessions.map Session.durationMin).sum : ℕ) : ℚ) := by
    exact_mod_cast hP0
  have hM' : (0:ℚ) ≤ ((jsRound ((c.last7dStats.totalMinutes : ℚ) * 1.1) : ℤ) : ℚ) := by
    have : (0:ℤ) ≤ jsRound ((c.last7dStats.totalMinutes : ℚ) * 1.1) := by omega
    exact_mod_cast this
  have hfrac : (nonRestSum p.sessions : ℚ) *
      (((jsRound ((c.last7dStats.totalMinutes : ℚ) * 1.1) : ℤ) : ℚ) /
        (((p.sessions.map Session.durationMin).sum : ℕ) : ℚ)) ≤
      ((jsRound ((c.last7dStats.totalMinutes : ℚ) * 1.1) : ℤ) : ℚ) := by
    calc (nonRestSum p.sessions : ℚ) *
        (((jsRound ((c.last7dStats.totalMinutes : ℚ) * 1.1) : ℤ) : ℚ) /
          (((p.sessions.map Session.durationMin).sum : ℕ) : ℚ)) ≤
        (((p.sessions.map Session.durationMin).sum : ℕ) : ℚ) *
          (((jsRound ((c.last7dStats.totalMinutes : ℚ) * 1.1) : ℤ) : ℚ) /
            (((p.sessions.map Session.durationMin).sum : ℕ) : ℚ)) := by
          apply mul_le_mul_of_nonneg_right hnr
          positivity
      _ = ((jsRound ((c.last7dStats.totalMinutes : ℚ) * 1.1) : ℤ) : ℚ) := by
          have hPne : (((p.sessions.map Session.durationMin).sum : ℕ) : ℚ) ≠ 0 :=
            ne_of_gt hP'
          rw [mul_comm, div_mul_eq_mul_div, mul_div_assoc, div_self hPne, mul_one]
  have hq : (nonRestSum (p.sessions.map (wlcScale
      (jsRound ((c.last7dStats.totalMinutes : ℚ) * 1.1))
      ((p.sessions.map Session.durationMin).sum))) : ℚ) ≤
      ((jsRound ((c.last7dStats.totalMinutes : ℚ) * 1.1) : ℤ) : ℚ) +
        30 * nonRestCount p.sessions := by linarith
  exact_mod_cast hq

/-! ## Concrete WeeklyLoadCap scenarios -/

def sBike (d dur : Nat) : Session :=
  { date := d, sport := Sport.bike, title := "Bike", durationMin := dur,
    intensity := Intensity.z2 }

def planC2 : WeekPlan :=
  { startDate := 0, sessions := [sBike 0 980, sBike 2 30], warnings := [], appliedRules := [] }

def ctxC2 : RulesContext := { last7dStats := { totalMinutes := 900, byDate := [] } }

/-- C2 fails as stated: with last week 900 min (cap 990) and two bike
sessions of 980 and 30 minutes (planned 1010 > 990), the rule scales the
first session to 961 and leaves the second at the 30-minute floor, so the
non-rest total 991 exceeds `max(990, 30 × 2) = 990`. -/
theorem C2_counterexample :
    0 < ctxC2.last7dStats.totalMinutes ∧
    jsRound ((ctxC2.last7dStats.totalMinutes : ℚ) * 1.1) <
      ((planC2.sessions.map Session.durationMin).sum : ℤ) ∧
    ¬ ((nonRestSum (applyWeeklyLoadCapRule planC2 ctxC2).sessions : ℤ) ≤
        max (jsRound ((ctxC2.last7dStats.totalMinutes : ℚ) * 1.1))
          (30 * (nonRestCount planC2.sessions : ℤ))) := by
  refine ⟨by decide, by norm_num [jsRound, planC2, ctxC2, sBike], ?_⟩
  norm_num [applyWeeklyLoadCapRule, wlcScale, jsRound, nonRestSum, nonRestCount,
    planC2, ctxC2, sBike]
  decide

theorem C2_amended_witness :
    (nonRestSum (applyWeeklyLoadCapRule planC2 ctxC2).sessions : ℤ) ≤
      jsRound ((ctxC2.last7dStats.totalMinutes : ℚ) * 1.1) +
        30 * nonRestCount planC2.sessions :=
  C2_amended_cap_bound planC2 ctxC2 (by decide)
    (by norm_num [jsRound, planC2, ctxC2, sBike])

/-! ## The 30-minute floor -/

theorem jsRound_scale_lt (d : ℕ) (M : ℤ) (P : ℕ) (hM : 0 ≤ M) (hMP : M < (P : ℤ))
    (hd : d < 30) : jsRound ((d : ℚ) * ((M : ℚ) / (P : ℚ))) < 30 := by
  unfold jsRound
  rw [Int.floor_lt]
  push_cast
  have hP0 : (0:ℚ) < (P : ℚ) := by
    have : (0:ℤ) < (P : ℤ) := lt_of_le_of_lt hM hMP
    exact_mod_cast this
  have hsc1 : (M : ℚ) / (P : ℚ) < 1 := (div_lt_one hP0).2 (by exact_mod_cast hMP)
  have hsc0 : (0:ℚ) ≤ (M : ℚ) / (P : ℚ) := by positivity
  have hd' : (d : ℚ) ≤ 29 := by exact_mod_cast Nat.le_of_lt_succ hd
  have hx : (d : ℚ) * ((M : ℚ) / (P : ℚ)) ≤ 29 * ((M : ℚ) / (P : ℚ)) :=
    mul_le_mul_of_nonneg_right hd' hsc0
  nlinarith

/-- C9: when WeeklyLoadCap fires, every non-rest session with positive input
duration ends at `durationMin ≥ 30`; a non-rest session with input duration
strictly between 0 and 30 is set to exactly 30 — the rule can lengthen a
session. -/
theorem C9_min_duration_floor (p : WeekPlan) (c : RulesContext)
    (h1 : 0 < c.last7dStats.totalMinutes)
    (h2 : jsRound ((c.last7dStats.totalMinutes : ℚ) * 1.1) <
      ((p.sessions.map Session.durationMin).sum : ℤ)) :
    List.Forall₂ (fun s t =>
      (s.sport ≠ Sport.rest → 0 < s.durationMin → 30 ≤ t.durationMin) ∧
      (s.sport ≠ Sport.rest → 0 < s.durationMin → s.durationMin < 30 →
        t.durationMin = 30)) p.sessions (applyWeeklyLoadCapRule p c).sessions := by
  have hM1 : 1 ≤ jsRound ((c.last7dStats.totalMinutes : ℚ) * 1.1) := by
    apply one_le_jsRound
    have h1' : (1:ℚ) ≤ (c.last7dStats.totalMinutes : ℚ) := by exact_mod_cast h1
    linarith
  rw [applyWeeklyLoadCapRule_sessions_of_fires p c (by omega) (not_le.2 h2)]
  rw [List.forall₂_map_right_iff]
  apply List.forall₂_same.2
  intro s _
  constructor
  · intro hs hd
    rw [wlcScale_durationMin _ _ s hs hd]
    have h30 : (30:ℤ) ≤ max 30 (jsRound ((s.durationMin : ℚ) *
        ((jsRound ((c.last7dStats.totalMinutes : ℚ) * 1.1) : ℚ) /
          (((p.sessions.map Session.durationMin).sum : ℕ) : ℚ)))) := le_max_left _ _
    omega
  · intro hs hd hlt
    rw [wlcScale_durationMin _ _ s hs hd]
    have hj := jsRound_scale_lt s.durationMin
      (jsRound ((c.last7dStats.totalMinutes : ℚ) * 1.1))
      ((p.sessions.map Session.durationMin).sum) (by omega) h2 hlt
    have hmax : max 30 (jsRound ((s.durationMin : ℚ) *
        ((jsRound ((c.last7dStats.totalMinutes : ℚ) * 1.1) : ℚ) /
          (((p.sessions.map Session.durationMin).sum : ℕ) : ℚ)))) = 30 :=
      max_eq_left (by omega)
    rw [hmax]
    rfl

def planC9 : WeekPlan :=
  { startDate := 0, sessions := [sBike 0 10, sBike 2 200], warnings := [], appliedRules := [] }

def ctxC9 : RulesContext := { last7dStats := { totalMinutes := 100, byDate := [] } }

theorem C9_witness :
    List.Forall₂ (fun s t =>
      (s.sport ≠ Sport.rest → 0 < s.durationMin → 30 ≤ t.durationMin) ∧
      (s.sport ≠ Sport.rest → 0 < s.durationMin → s.durationMin < 30 →
        t.durationMin = 30)) planC9.sessions (applyWeeklyLoadCapRule planC9 ctxC9).sessions :=
  C9_min_duration_floor planC9 ctxC9 (by decide)
    (by norm_num [jsRound, planC9, ctxC9, sBike])

/-! ## appliedRules is appended exactly when the modified flag is set -/

theorem append_singleton_ne (l : List String) (x : String) : l ++ [x] ≠ l := by
  intro h
  have := congrArg List.length h
  simp at this

theorem map_fst_eq_self_of_not_any (step : Session → Session × Bool) (l : List Session)
    (h0 : ∀ s, (step s).2 = false → (step s).1 = s)
    (hany : (l.map step).any Prod.snd = false) :
    (l.map step).map Prod.fst = l := by
  induction l with
  | nil => rfl
  | cons s t ih =>
    simp only [List.map_cons, List.any_cons, Bool.or_eq_false_iff] at hany ⊢
    rw [h0 s hany.1, ih hany.2]

theorem map_fst_ne_self_of_any (step : Session → Session × Bool) (l : List Session)
    (h1 : ∀ s, (step s).2 = true → (step s).1 ≠ s)
    (hany : (l.map step).any Prod.snd = true) :
    (l.map step).map Prod.fst ≠ l := by
  induction l with
  | nil => simp at hany
  | cons s t ih =>
    simp only [List.map_cons, List.any_cons, Bool.or_eq_true] at hany
    intro heq
    simp only [List.map_cons] at heq
    rw [List.cons.injEq] at heq
    rcases hany with hb | hb
    · exact h1 s hb heq.1
    · exact ih hb heq.2

theorem swimRotateSession_snd_false (s : Session) :
    (swimRotateSession s).2 = false → (swimRotateSession s).1 = s := by
  unfold swimRotateSession
  split
  · split
    · intro h
      exact absurd h (by simp)
    · split
      · intro h
        exact absurd h (by simp)
      · intro _
        rfl
  · intro _
    rfl

theorem swimRotateSession_snd_true (s : Session) :
    (swimRotateSession s).2 = true → (swimRotateSession s).1 ≠ s := by
  unfold swimRotateSession
  split
  · split
    · rename_i hguard
      intro _ heq
      have htags := congrArg Session.tags heq
      rw [Bool.and_eq_true] at hguard
      have hni := hguard.2
      rw [← htags] at hni
      simp [tagsInclude] at hni
    · split
      · rename_i hguard
        intro _ heq
        have htags := congrArg Session.tags heq
        rw [Bool.and_eq_true] at hguard
        have hni := hguard.2
        rw [← htags] at hni
        simp [tagsInclude] at hni
      · intro h
        exact absurd h (by simp)
  · intro h
    exact absurd h (by simp)

theorem readinessStep_snd_false (todayStr rd : Nat) (s : Session) :
    (readinessStep todayStr rd s).2 = false → (readinessStep todayStr rd s).1 = s := by
  unfold readinessStep
  split
  · intro h
    exact absurd h (by simp)
  · intro _
    rfl

theorem readinessStep_snd_true (todayStr rd : Nat) (s : Session) :
    (readinessStep todayStr rd s).2 = true → (readinessStep todayStr rd s).1 ≠ s := by
  unfold readinessStep
  split
  · intro _
    exact downgradeToEasy_ne s _
  · intro h
    exact absurd h (by simp)

theorem noHardHardWalk_not_modified (l : List Session) : ∀ (pH : Bool) (pD : Option Nat),
    (noHardHardWalk pH pD l).2 = false → (noHardHardWalk pH pD l).1 = l := by
  induction l with
  | nil =>
    intro pH pD _
    rfl
  | cons s t ih =>
    intro pH pD
    simp only [noHardHardWalk]
    split
    · intro h
      exact absurd h (by simp)
    · intro h
      dsimp only at h ⊢
      rw [ih _ _ h]

theorem noHardHardWalk_modified (l : List Session) : ∀ (pH : Bool) (pD : Option Nat),
    (noHardHardWalk pH pD l).2 = true → (noHardHardWalk pH pD l).1 ≠ l := by
  induction l with
  | nil =>
    intro pH pD h
    exact absurd h (by simp [noHardHardWalk])
  | cons s t ih =>
    intro pH pD
    simp only [noHardHardWalk]
    split
    · intro _ heq
      rw [List.cons.injEq] at heq
      exact downgradeToEasy_ne s _ heq.1
    · intro h heq
      dsimp only at h heq
      rw [List.cons.injEq] at heq
      exact ih _ _ h heq.2

theorem swimRotation_appliedRules_iff (p : WeekPlan) :
    (applySwimRotationRule p).appliedRules ≠ p.appliedRules ↔
      (applySwimRotationRule p).sessions ≠ p.sessions := by
  have hb : (p.sessions.map swimRotateSession).map Prod.fst =
      p.sessions.map (fun s => (swimRotateSession s).1) := by
    rw [List.map_map]
    rfl
  rw [applySwimRotationRule_sessions]
  unfold applySwimRotationRule
  dsimp only
  cases hany : (p.sessions.map swimRotateSession).any Prod.snd
  · rw [if_neg (by simp)]
    have heq := map_fst_eq_self_of_not_any swimRotateSession p.sessions
      swimRotateSession_snd_false hany
    rw [hb] at heq
    constructor
    · intro h
      exact absurd rfl h
    · intro h
      exact absurd heq h
  · rw [if_pos rfl]
    have hne := map_fst_ne_self_of_any swimRotateSession p.sessions
      swimRotateSession_snd_true hany
    rw [hb] at hne
    constructor
    · intro _
      exact hne
    · intro _
      exact append_singleton_ne _ _

theorem readiness_appliedRules_iff (p : WeekPlan) (c : RulesContext) :
    (applyReadinessDownshiftRule p c).appliedRules ≠ p.appliedRules ↔
      (applyReadinessDownshiftRule p c).sessions ≠ p.sessions := by
  unfold applyReadinessDownshiftRule
  split
  · simp
  · split
    · simp
    · rename_i x tf htf hr
      dsimp only
      have hb : (p.sessions.map (readinessStep p.startDate tf.readiness)).map Prod.fst =
          p.sessions.map (fun s => (readinessStep p.startDate tf.readiness s).1) := by
        rw [List.map_map]
        rfl
      cases hany : (p.sessions.map (readinessStep p.startDate tf.readiness)).any Prod.snd
      · rw [if_neg (by simp)]
        have heq := map_fst_eq_self_of_not_any _ p.sessions
          (readinessStep_snd_false p.startDate tf.readiness) hany
        dsimp only
        constructor
        · intro h
          exact absurd rfl h
        · intro h
          exact absurd heq h
      · rw [if_pos rfl]
        have hne := map_fst_ne_self_of_any _ p.sessions
          (readinessStep_snd_true p.startDate tf.readiness) hany
        dsimp only
        constructor
        · intro _
          exact hne
        · intro _
          exact append_singleton_ne _ _

theorem noHardHard_appliedRules_iff (p : WeekPlan) :
    (applyNoHardHardRule p).appliedRules ≠ p.appliedRules ↔
      (applyNoHardHardRule p).sessions ≠ List.insertionSort dateLe p.sessions := by
  unfold applyNoHardHardRule
  dsimp only
  cases hmod : (noHardHardWalk false none (List.insertionSort dateLe p.sessions)).2
  · rw [if_neg (by simp)]
    have heq := noHardHardWalk_not_modified (List.insertionSort dateLe p.sessions)
      false none hmod
    constructor
    · intro h
      exact absurd rfl h
    · intro h
      exact absurd heq h
  · rw [if_pos rfl]
    have hne := noHardHardWalk_modified (List.insertionSort dateLe p.sessions)
      false none hmod
    constructor
    · intro _
      exact hne
    · intro _
      exact append_singleton_ne _ _

theorem wlc_appliedRules_iff (p : WeekPlan) (c : RulesContext) :
    (applyWeeklyLoadCapRule p c).appliedRules ≠ p.appliedRules ↔
      (0 < c.last7dStats.totalMinutes ∧
        jsRound ((c.last7dStats.totalMinutes : ℚ) * 1.1) <
          ((p.sessions.map Session.durationMin).sum : ℤ)) := by
  unfold applyWeeklyLoadCapRule
  dsimp only
  split
  · rename_i h0
    simp [h0]
  · rename_i h0
    split
    · rename_i hle
      constructor
      · intro h
        exact absurd rfl h
      · rintro ⟨_, hlt⟩
        exact absurd hle (not_le.2 hlt)
    · rename_i hle
      constructor
      · intro _
        exact ⟨Nat.pos_of_ne_zero h0, not_le.1 hle⟩
      · intro _
        exact append_singleton_ne _ _

/-- C4 (amended): SwimRotation and ReadinessDownshift append an
`appliedRules` entry iff they changed some session; NoHardHard appends an
entry iff its output differs from the date-sorted input (i.e. some session
was downgraded); WeeklyLoadCap appends an entry iff the history is non-zero
and the planned minutes exceed the cap — which can happen even when every
session is left unchanged. -/
theorem C4_amended_applied_rules_iff (p : WeekPlan) (c : RulesContext) :
    ((applySwimRotationRule p).appliedRules ≠ p.appliedRules ↔
      (applySwimRotationRule p).sessions ≠ p.sessions) ∧
    ((applyReadinessDownshiftRule p c).appliedRules ≠ p.appliedRules ↔
      (applyReadinessDownshiftRule p c).sessions ≠ p.sessions) ∧
    ((applyNoHardHardRule p).appliedRules ≠ p.appliedRules ↔
      (applyNoHardHardRule p).sessions ≠ List.insertionSort dateLe p.sessions) ∧
    ((applyWeeklyLoadCapRule p c).appliedRules ≠ p.appliedRules ↔
      (0 < c.last7dStats.totalMinutes ∧
        jsRound ((c.last7dStats.totalMinutes : ℚ) * 1.1) <
          ((p.sessions.map Session.durationMin).sum : ℤ))) :=
  ⟨swimRotation_appliedRules_iff p, readiness_appliedRules_iff p c,
   noHardHard_appliedRules_iff p, wlc_appliedRules_iff p c⟩

def planC4 : WeekPlan :=
  { startDate := 0, sessions := [sBike 0 300, sBike 2 300, sBike 4 400],
    warnings := [], appliedRules := [] }

def ctxC4 : RulesContext := { last7dStats := { totalMinutes := 908, byDate := [] } }

/-- C4 fails as stated: with last week 908 min (cap 999) and three bike
sessions of 300, 300 and 400 minutes (planned 1000 > 999), every scaled
duration rounds back to its input (300·0.999 → 300, 400·0.999 → 400), so
WeeklyLoadCap changes no session, yet it appends an `appliedRules` entry. -/
theorem C4_counterexample :
    (applyWeeklyLoadCapRule planC4 ctxC4).sessions = planC4.sessions ∧
    (applyWeeklyLoadCapRule planC4 ctxC4).appliedRules ≠ planC4.appliedRules := by
  constructor
  · norm_num [applyWeeklyLoadCapRule, wlcScale, jsRound, planC4, ctxC4, sBike]
    decide
  · exact (wlc_appliedRules_iff planC4 ctxC4).2
      ⟨by decide, by norm_num [jsRound, planC4, ctxC4, sBike]⟩
